import Mathlib

/-!
Read barrier, smart pointer, flag bits and allocation ledger of `dobjgc.h`:
a shallow embedding of `src/common/objects/dobjgc.h`.

* A raw managed pointer is an address (`Ptr`), `NULL` is address `0`.
* Object memory (`Heap`) says which object, if any, lives at an address; of an
  object only the flag word `ObjectFlags` is read by this header.
* A function that takes a pointer by reference (`T *&obj`) takes the slot's
  value and returns the slot's value afterwards; a member function of
  `TObjPtr` does the same with the stored pointer `pp`.
* Reading through `NULL`, or through an address where no object lives, is a
  `Fault`; so is a failed `assert`.
* `size_t` is `Nat` reduced modulo `2 ^ w`, the width `w` being a parameter.
-/

namespace GZDoom

/-! ## EObjectFlags -/

def OF_White0 : Nat := 1 <<< 0
def OF_White1 : Nat := 1 <<< 1
def OF_Black : Nat := 1 <<< 2
def OF_Fixed : Nat := 1 <<< 3
def OF_Rooted : Nat := 1 <<< 4
def OF_EuthanizeMe : Nat := 1 <<< 5
def OF_Cleanup : Nat := 1 <<< 6
def OF_YesReallyDelete : Nat := 1 <<< 7
def OF_WhiteBits : Nat := OF_White0 ||| OF_White1
def OF_MarkBits : Nat := OF_WhiteBits ||| OF_Black
def OF_JustSpawned : Nat := 1 <<< 8
def OF_SerialSuccess : Nat := 1 <<< 9
def OF_Sentinel : Nat := 1 <<< 10
def OF_Transient : Nat := 1 <<< 11
def OF_Spawned : Nat := 1 <<< 12
def OF_Released : Nat := 1 <<< 13
def OF_Networked : Nat := 1 <<< 14
def OF_ClientSide : Nat := 1 <<< 15

/-! ## Pointers and object memory -/

/-- A raw managed pointer is the address it holds. -/
abbrev Ptr := Nat

/-- The null pointer. -/
def NULL : Ptr := 0

/-- The part of a `DObject` this header reads: its flag word. -/
structure DObject where
  ObjectFlags : Nat
deriving DecidableEq, Repr

/-- Object memory: the object living at each address, if there is one. -/
abbrev Heap := Ptr → Option DObject

/-- What can go wrong when the header's code runs. -/
inductive Fault where
  | NullDeref
  | Dangling
  | AssertFailed
deriving DecidableEq, Repr

/-- The read `obj->...`: a fault through `NULL` and through an address without an object. -/
def deref (heap : Heap) (p : Ptr) : Except Fault DObject :=
  if p = NULL then Except.error Fault.NullDeref
  else match heap p with
    | some d => Except.ok d
    | none => Except.error Fault.Dangling

/-- What a call leaves behind: the value returned, the pointer slot it was given
(a reference argument, or the `pp` of the `TObjPtr` it was called on), and object memory. -/
structure Outcome (α : Type) where
  ret : α
  slot : Ptr
  heap : Heap

/-- The slot's referent exists and has `OF_EuthanizeMe` set. -/
def Euthanized (heap : Heap) (p : Ptr) : Prop :=
  ∃ d, deref heap p = Except.ok d ∧ d.ObjectFlags &&& OF_EuthanizeMe ≠ 0

/-- The slot's referent exists and has `OF_EuthanizeMe` clear. -/
def Alive (heap : Heap) (p : Ptr) : Prop :=
  ∃ d, deref heap p = Except.ok d ∧ d.ObjectFlags &&& OF_EuthanizeMe = 0

/-- A slot a program can hold: null, or the address of an object. -/
def ValidSlot (heap : Heap) (p : Ptr) : Prop :=
  p = NULL ∨ ∃ d, heap p = some d

/-! ## namespace GC -/

namespace GC

inductive EGCState where
  | GCS_Pause
  | GCS_Propagate
  | GCS_Sweep
  | GCS_Destroy
  | GCS_Done
deriving DecidableEq, Repr

/-- The process-wide variables the header declares `extern`. -/
structure Globals where
  AllocBytes : Nat
  RunningAllocBytes : Nat
  RunningDeallocBytes : Nat
  Threshold : Nat
  Gray : Ptr
  Root : Ptr
  CurrentWhite : Nat
  State : EGCState
  SweepPos : Ptr
  Pause : Int
  StepMul : Int
  FinalGC : Bool
deriving DecidableEq, Repr

/-- The `uint32_t` result of `CurrentWhite ^ OF_WhiteBits`. -/
def OtherWhite (g : Globals) : Nat :=
  (g.CurrentWhite ^^^ OF_WhiteBits) % 2 ^ 32

/-- The overload `T *ReadBarrier(T *&obj)`. The test `obj == NULL || ...` reads the
flags only when `obj` is not null; the last line stores `NULL` into the slot. -/
def ReadBarrier (heap : Heap) (obj : Ptr) : Except Fault (Outcome Ptr) :=
  if obj = NULL then Except.ok ⟨obj, obj, heap⟩
  else match deref heap obj with
    | Except.error e => Except.error e
    | Except.ok d =>
      if d.ObjectFlags &&& OF_EuthanizeMe = 0 then Except.ok ⟨obj, obj, heap⟩
      else Except.ok ⟨NULL, NULL, heap⟩

/-- The overload `T* ReadBarrier(const T*& obj)`: the same test, no store. -/
def ReadBarrierConst (heap : Heap) (obj : Ptr) : Except Fault (Outcome Ptr) :=
  if obj = NULL then Except.ok ⟨obj, obj, heap⟩
  else match deref heap obj with
    | Except.error e => Except.error e
    | Except.ok d =>
      if d.ObjectFlags &&& OF_EuthanizeMe = 0 then Except.ok ⟨obj, obj, heap⟩
      else Except.ok ⟨NULL, obj, heap⟩

/-- The body `Threshold = AllocBytes;`. -/
def StartCollection (g : Globals) : Globals :=
  { g with Threshold := g.AllocBytes }

/-- Addition of two `size_t` of `w` bits. -/
def size_add (w a b : Nat) : Nat := (a + b) % 2 ^ w

/-- Subtraction of two `size_t` of `w` bits, wrapping below zero. -/
def size_sub (w a b : Nat) : Nat := (a + (2 ^ w - b % 2 ^ w)) % 2 ^ w

/-- The body `AllocBytes += alloc; RunningAllocBytes += alloc;`. -/
def ReportAlloc (w : Nat) (g : Globals) (alloc : Nat) : Globals :=
  { g with
    AllocBytes := size_add w g.AllocBytes alloc
    RunningAllocBytes := size_add w g.RunningAllocBytes alloc }

/-- The body `AllocBytes -= dealloc; RunningDeallocBytes += dealloc;`. -/
def ReportDealloc (w : Nat) (g : Globals) (dealloc : Nat) : Globals :=
  { g with
    AllocBytes := size_sub w g.AllocBytes dealloc
    RunningDeallocBytes := size_add w g.RunningDeallocBytes dealloc }

/-- The two branches of `ReportRealloc`, each with its own `size_t` subtraction. -/
def ReportRealloc (w : Nat) (g : Globals) (oldsize newsize : Nat) : Globals :=
  if oldsize < newsize then ReportAlloc w g (size_sub w newsize oldsize)
  else ReportDealloc w g (size_sub w oldsize newsize)

end GC

/-! ## class TObjPtr -/

/-- The one word of a `TObjPtr<T>`: the union of `pp` and `o`. -/
structure TObjPtr where
  pp : Ptr
deriving DecidableEq, Repr

namespace TObjPtr

/-- The union member `o` names the same storage as `pp`. -/
def o (p : TObjPtr) : Ptr := p.pp

/-- The assignment `operator=(T q)`: `pp = q`. -/
def assign (_p : TObjPtr) (q : Ptr) : TObjPtr := ⟨q⟩

/-- The assignment `operator=(std::nullptr_t)`: `o = nullptr`. -/
def assign_nullptr (_p : TObjPtr) : TObjPtr := ⟨NULL⟩

/-- The assignment `operator=(const int val)`: `assert(val == 0); o = nullptr`. -/
def assign_int (_p : TObjPtr) (val : Int) : Except Fault TObjPtr :=
  if val = 0 then Except.ok ⟨NULL⟩ else Except.error Fault.AssertFailed

/-- The assignment `operator=(const long val)`: `assert(val == 0); o = nullptr`. -/
def assign_long (_p : TObjPtr) (val : Int) : Except Fault TObjPtr :=
  if val = 0 then Except.ok ⟨NULL⟩ else Except.error Fault.AssertFailed

/-- The member `T Get()`: `return GC::ReadBarrier(pp);`. -/
def Get (heap : Heap) (p : TObjPtr) : Except Fault (Outcome Ptr) :=
  GC.ReadBarrier heap p.pp

/-- The member `T Get() const`: the barrier runs on the local copy `ppp`, so `pp` keeps
its value whatever the barrier stores. -/
def Get_const (heap : Heap) (p : TObjPtr) : Except Fault (Outcome Ptr) :=
  let ppp := p.pp
  match GC.ReadBarrier heap ppp with
  | Except.error e => Except.error e
  | Except.ok r => Except.ok ⟨r.ret, p.pp, r.heap⟩

/-- The member `T ForceGet() const`: `return pp;`. -/
def ForceGet (heap : Heap) (p : TObjPtr) : Outcome Ptr :=
  ⟨p.pp, p.pp, heap⟩

/-- The conversion `operator T()`: `return GC::ReadBarrier(pp);`. -/
def operator_T (heap : Heap) (p : TObjPtr) : Except Fault (Outcome Ptr) :=
  GC.ReadBarrier heap p.pp

/-
The member `T &operator*()` (lines 268-273) has no embedding. `T` is the pointer type
stored in `pp`, so the declared result `T &` is a reference to a pointer, while the body
returns `*q`, the object the pointer leads to. No instantiation of the member is
well-formed, and no program evaluates `*p` on a `TObjPtr`; there is no run of it to embed.
-/

/-- The member `T operator->()`: `return GC::ReadBarrier(pp);`. -/
def operator_arrow (heap : Heap) (p : TObjPtr) : Except Fault (Outcome Ptr) :=
  GC.ReadBarrier heap p.pp

/-- The member `const T operator->() const`: `pp` is `mutable`, an lvalue of type `T` also
here, so the call binds to `ReadBarrier(T *&)`, the overload that stores. -/
def operator_arrow_const (heap : Heap) (p : TObjPtr) : Except Fault (Outcome Ptr) :=
  GC.ReadBarrier heap p.pp

/-- The member `bool operator!=(T u) const`: `return GC::ReadBarrier(o) != u;`. The member
`o` is a `mutable DObject *`, so the overload that stores is the one called. -/
def operator_ne (heap : Heap) (p : TObjPtr) (u : Ptr) : Except Fault (Outcome Bool) :=
  match GC.ReadBarrier heap p.o with
  | Except.error e => Except.error e
  | Except.ok r => Except.ok ⟨r.ret != u, r.slot, r.heap⟩

/-- The member `bool operator==(T u) const`: `return GC::ReadBarrier(o) == u;`. -/
def operator_eq (heap : Heap) (p : TObjPtr) (u : Ptr) : Except Fault (Outcome Bool) :=
  match GC.ReadBarrier heap p.o with
  | Except.error e => Except.error e
  | Except.ok r => Except.ok ⟨r.ret == u, r.slot, r.heap⟩

/-- What `operator==(TObjPtr<T> u)` leaves: the answer, `pp` of the left operand and of the
by-value right operand, and object memory. -/
structure Compared where
  ret : Bool
  lhs : Ptr
  rhs : Ptr
  heap : Heap

/-- The member `bool operator==(TObjPtr<T> u) const`: `return ForceGet() == u.ForceGet();`. -/
def operator_eq_objptr (heap : Heap) (p u : TObjPtr) : Compared :=
  let a := ForceGet heap p
  let b := ForceGet a.heap u
  ⟨a.ret == b.ret, a.slot, b.slot, b.heap⟩

end TObjPtr

/-- The pointer conversion `static_cast` between related object types: the classes under
`DObject` inherit singly, so the address is kept. -/
def static_cast (p : Ptr) : Ptr := p

/-- The function `MakeObjPtr(T t)`: a `TObjPtr` left uninitialised (`junk`), then `tt = t`. -/
def MakeObjPtr (junk : Ptr) (t : Ptr) : TObjPtr :=
  let tt : TObjPtr := ⟨junk⟩
  tt.assign t

/-- The function `barrier_cast<T>(TObjPtr<U> &o)`: `static_cast<T>(static_cast<U>(o))`, the
inner cast being the conversion `operator U()` of `o`. -/
def barrier_cast (heap : Heap) (o : TObjPtr) : Except Fault (Outcome Ptr) :=
  match TObjPtr.operator_T heap o with
  | Except.error e => Except.error e
  | Except.ok r => Except.ok ⟨static_cast r.ret, r.slot, r.heap⟩

/-! ## Sequences of calls -/

/-- The ways the header reads a pointer slot through the read barrier. -/
inductive ReadOp where
  | ReadBarrier
  | ReadBarrierConst
  | Get
  | Get_const
  | operator_T
  | operator_arrow
  | operator_arrow_const
deriving DecidableEq, Repr

/-- One read of the slot, by the code of the named function. -/
def ReadOp.run (heap : Heap) (slot : Ptr) : ReadOp → Except Fault (Outcome Ptr)
  | ReadOp.ReadBarrier => GC.ReadBarrier heap slot
  | ReadOp.ReadBarrierConst => GC.ReadBarrierConst heap slot
  | ReadOp.Get => TObjPtr.Get heap ⟨slot⟩
  | ReadOp.Get_const => TObjPtr.Get_const heap ⟨slot⟩
  | ReadOp.operator_T => TObjPtr.operator_T heap ⟨slot⟩
  | ReadOp.operator_arrow => TObjPtr.operator_arrow heap ⟨slot⟩
  | ReadOp.operator_arrow_const => TObjPtr.operator_arrow_const heap ⟨slot⟩

/-- Reads of one slot, one after the other, nothing assigned to the slot in between:
the values read in order, then the slot and object memory at the end. -/
def readAll (heap : Heap) (slot : Ptr) : List ReadOp → Except Fault (List Ptr × Ptr × Heap)
  | [] => Except.ok ([], slot, heap)
  | op :: ops =>
    match op.run heap slot with
    | Except.error e => Except.error e
    | Except.ok r =>
      match readAll r.heap r.slot ops with
      | Except.error e => Except.error e
      | Except.ok (vs, s, h) => Except.ok (r.ret :: vs, s, h)

/-- One call of the allocator into the ledger. -/
inductive Report where
  | Alloc (alloc : Nat)
  | Dealloc (dealloc : Nat)
  | Realloc (oldsize newsize : Nat)
deriving DecidableEq, Repr

/-- The call a `Report` stands for. -/
def Report.run (w : Nat) (g : GC.Globals) : Report → GC.Globals
  | Report.Alloc n => GC.ReportAlloc w g n
  | Report.Dealloc n => GC.ReportDealloc w g n
  | Report.Realloc a b => GC.ReportRealloc w g a b

/-- The calls of a list, first to last. -/
def runReports (w : Nat) (g : GC.Globals) : List Report → GC.Globals
  | [] => g
  | r :: rs => runReports w (r.run w g) rs

/-- Bytes a call reports as allocated; a `Realloc` allocates the new size. -/
def Report.allocated : Report → Nat
  | Report.Alloc n => n
  | Report.Dealloc _ => 0
  | Report.Realloc _ b => b

/-- Bytes a call reports as freed; a `Realloc` frees the old size. -/
def Report.freed : Report → Nat
  | Report.Alloc _ => 0
  | Report.Dealloc n => n
  | Report.Realloc a _ => a

/-- Total of the bytes reported as allocated. -/
def totalAllocated (rs : List Report) : Nat := (rs.map Report.allocated).sum

/-- Total of the bytes reported as freed. -/
def totalFreed (rs : List Report) : Nat := (rs.map Report.freed).sum

/-- With `live` bytes on the ledger, no call of the list frees more than is live when it is
made, and no count of live bytes leaves the range of a `size_t` of `w` bits. -/
def InRange (w : Nat) (live : Nat) : List Report → Prop
  | [] => True
  | Report.Alloc n :: rs => live + n < 2 ^ w ∧ InRange w (live + n) rs
  | Report.Dealloc n :: rs => n ≤ live ∧ InRange w (live - n) rs
  | Report.Realloc a b :: rs => a ≤ live ∧ live - a + b < 2 ^ w ∧ InRange w (live - a + b) rs

/-- Bytes a call adds to `AllocBytes`: the operand of the `AllocBytes += ...` it reaches,
nothing when it reaches none. -/
def Report.added : Report → Nat
  | Report.Alloc n => n
  | Report.Dealloc _ => 0
  | Report.Realloc a b => if a < b then b - a else 0

/-- Bytes a call subtracts from `AllocBytes`: the operand of the `AllocBytes -= ...` it
reaches, nothing when it reaches none. -/
def Report.subtracted : Report → Nat
  | Report.Alloc _ => 0
  | Report.Dealloc n => n
  | Report.Realloc a b => if a < b then 0 else a - b

/-- Total of the bytes added to `AllocBytes`. -/
def totalAdded (rs : List Report) : Nat := (rs.map Report.added).sum

/-- Total of the bytes subtracted from `AllocBytes`. -/
def totalSubtracted (rs : List Report) : Nat := (rs.map Report.subtracted).sum

/-- The arguments of the call are `size_t` of `w` bits. -/
def Report.SizeArgs (w : Nat) : Report → Prop
  | Report.Alloc n => n < 2 ^ w
  | Report.Dealloc n => n < 2 ^ w
  | Report.Realloc a b => a < 2 ^ w ∧ b < 2 ^ w

/-- The value `AllocBytes - RunningAllocBytes + RunningDeallocBytes` in `size_t` arithmetic. -/
def ledgerBase (w : Nat) (g : GC.Globals) : Nat :=
  GC.size_add w (GC.size_sub w g.AllocBytes g.RunningAllocBytes) g.RunningDeallocBytes

/-- Modelled from the spec: the flip `CurrentWhite ^= OF_WhiteBits` the collector makes when
its Destroy phase runs empty. The statement is in the collector's step function, which this
header only declares; `CurrentWhite` is a `uint32_t`. -/
def GC.flipCurrentWhite (g : GC.Globals) : GC.Globals :=
  { g with CurrentWhite := (g.CurrentWhite ^^^ OF_WhiteBits) % 2 ^ 32 }

/-! ## Flag words -/

/-- The sixteen single-bit enumerators of `EObjectFlags`, in the order of their bits. -/
def EObjectFlags : List Nat :=
  [OF_White0, OF_White1, OF_Black, OF_Fixed, OF_Rooted, OF_EuthanizeMe, OF_Cleanup,
   OF_YesReallyDelete, OF_JustSpawned, OF_SerialSuccess, OF_Sentinel, OF_Transient,
   OF_Spawned, OF_Released, OF_Networked, OF_ClientSide]

/-- The enumerators of `EObjectFlags` that are no color bit. -/
def attributeFlags : List Nat :=
  [OF_Fixed, OF_Rooted, OF_EuthanizeMe, OF_Cleanup, OF_YesReallyDelete, OF_JustSpawned,
   OF_SerialSuccess, OF_Sentinel, OF_Transient, OF_Spawned, OF_Released, OF_Networked,
   OF_ClientSide]

/-- Modelled from the spec: setting bits of a flag word, the statement `ObjectFlags |= a`
of the code that owns the objects, which is not in this header. -/
def setFlags (flags a : Nat) : Nat := flags ||| a

/-- Modelled from the spec: clearing bits of a 32-bit flag word, the statement
`ObjectFlags &= ~a` of the code that owns the objects, which is not in this header. -/
def clearFlags (flags a : Nat) : Nat := flags &&& (a ^^^ (2 ^ 32 - 1))

/-- Modelled from the spec: toggling bits of a flag word, the statement `ObjectFlags ^= a`
of the code that owns the objects, which is not in this header. -/
def toggleFlags (flags a : Nat) : Nat := flags ^^^ a

/-! ## Sample states -/

/-- Object memory with a dying object at address 1 and a healthy one at address 2. -/
def sampleHeap : Heap := fun a =>
  if a = 1 then some ⟨OF_EuthanizeMe ||| OF_White0⟩
  else if a = 2 then some ⟨OF_White1⟩
  else none

/-- A ledger in the middle of a cycle. -/
def sampleGlobals : GC.Globals :=
  { AllocBytes := 1000, RunningAllocBytes := 300, RunningDeallocBytes := 40, Threshold := 4096,
    Gray := 2, Root := 1, CurrentWhite := OF_White0, State := GC.EGCState.GCS_Propagate,
    SweepPos := NULL, Pause := 150, StepMul := 400, FinalGC := false }

/-- A 64-bit ledger whose `RunningAllocBytes` holds the largest `size_t`. -/
def fullCounterGlobals : GC.Globals :=
  { sampleGlobals with RunningAllocBytes := 2 ^ 64 - 1 }

/-! ## The read barrier -/

theorem deref_ne_null {heap : Heap} {p : Ptr} {d : DObject}
    (h : deref heap p = Except.ok d) : p ≠ NULL := by
  intro hp
  simp [deref, hp] at h

theorem Euthanized.slot_ne_null {heap : Heap} {p : Ptr} (h : Euthanized heap p) : p ≠ NULL := by
  obtain ⟨d, hd, _⟩ := h
  exact deref_ne_null hd

theorem Alive.referent_ne_null {heap : Heap} {p : Ptr} (h : Alive heap p) : p ≠ NULL := by
  obtain ⟨d, hd, _⟩ := h
  exact deref_ne_null hd

theorem Alive.not_euthanized {heap : Heap} {p : Ptr} (h : Alive heap p) :
    ¬ Euthanized heap p := by
  obtain ⟨d, hd, hf⟩ := h
  rintro ⟨e, he, hg⟩
  rw [hd] at he
  cases he
  exact hg hf

theorem ValidSlot.cases {heap : Heap} {p : Ptr} (h : ValidSlot heap p) :
    p = NULL ∨ Alive heap p ∨ Euthanized heap p := by
  by_cases hp : p = NULL
  · exact Or.inl hp
  · rcases h with h | ⟨d, hd⟩
    · exact absurd h hp
    · have hderef : deref heap p = Except.ok d := by simp [deref, hp, hd]
      by_cases hf : d.ObjectFlags &&& OF_EuthanizeMe = 0
      · exact Or.inr (Or.inl ⟨d, hderef, hf⟩)
      · exact Or.inr (Or.inr ⟨d, hderef, hf⟩)

theorem ReadBarrier_null (heap : Heap) :
    GC.ReadBarrier heap NULL = Except.ok ⟨NULL, NULL, heap⟩ := by
  simp [GC.ReadBarrier]

theorem ReadBarrier_alive {heap : Heap} {p : Ptr} (h : Alive heap p) :
    GC.ReadBarrier heap p = Except.ok ⟨p, p, heap⟩ := by
  have hp := deref_ne_null h.choose_spec.1
  obtain ⟨d, hd, hf⟩ := h
  simp [GC.ReadBarrier, hp, hd, hf]

theorem ReadBarrier_euthanized {heap : Heap} {p : Ptr} (h : Euthanized heap p) :
    GC.ReadBarrier heap p = Except.ok ⟨NULL, NULL, heap⟩ := by
  have hp := deref_ne_null h.choose_spec.1
  obtain ⟨d, hd, hf⟩ := h
  simp [GC.ReadBarrier, hp, hd, hf]

theorem ReadBarrierConst_null (heap : Heap) :
    GC.ReadBarrierConst heap NULL = Except.ok ⟨NULL, NULL, heap⟩ := by
  simp [GC.ReadBarrierConst]

theorem ReadBarrierConst_alive {heap : Heap} {p : Ptr} (h : Alive heap p) :
    GC.ReadBarrierConst heap p = Except.ok ⟨p, p, heap⟩ := by
  have hp := deref_ne_null h.choose_spec.1
  obtain ⟨d, hd, hf⟩ := h
  simp [GC.ReadBarrierConst, hp, hd, hf]

theorem ReadBarrierConst_euthanized {heap : Heap} {p : Ptr} (h : Euthanized heap p) :
    GC.ReadBarrierConst heap p = Except.ok ⟨NULL, p, heap⟩ := by
  have hp := deref_ne_null h.choose_spec.1
  obtain ⟨d, hd, hf⟩ := h
  simp [GC.ReadBarrierConst, hp, hd, hf]

theorem sampleHeap_euthanized : Euthanized sampleHeap 1 :=
  ⟨⟨OF_EuthanizeMe ||| OF_White0⟩, rfl, by decide⟩

theorem sampleHeap_alive : Alive sampleHeap 2 :=
  ⟨⟨OF_White1⟩, rfl, by decide⟩

/-- C1. The storing read barrier `GC::ReadBarrier(T *&obj)`: on a slot that is null or whose
referent has `OF_EuthanizeMe` clear it returns the slot's value and the slot keeps it; on a
slot whose referent has `OF_EuthanizeMe` set it returns null and the slot is null afterwards.
Object memory is the same afterwards in both cases, and no call reads through a null pointer. -/
theorem C1_ReadBarrier_contract (heap : Heap) (obj : Ptr) :
    ((obj = NULL ∨ Alive heap obj) → GC.ReadBarrier heap obj = Except.ok ⟨obj, obj, heap⟩) ∧
    (Euthanized heap obj → GC.ReadBarrier heap obj = Except.ok ⟨NULL, NULL, heap⟩) ∧
    GC.ReadBarrier heap obj ≠ Except.error Fault.NullDeref := by
  refine ⟨?_, ReadBarrier_euthanized, ?_⟩
  · rintro (h | h)
    · subst h
      exact ReadBarrier_null heap
    · exact ReadBarrier_alive h
  · by_cases hp : obj = NULL
    · subst hp
      rw [ReadBarrier_null]
      exact fun h => nomatch h
    · cases hd : heap obj with
      | none => simp [GC.ReadBarrier, deref, hp, hd]
      | some d =>
        by_cases hf : d.ObjectFlags &&& OF_EuthanizeMe = 0 <;>
          simp [GC.ReadBarrier, deref, hp, hd, hf]

/-- C1 at the sample memory: the healthy object at 2 is read as is, the dying object at 1 is
read as null and its slot cleared, a null slot is read as null. -/
theorem C1_ReadBarrier_contract_witness :
    GC.ReadBarrier sampleHeap 2 = Except.ok ⟨2, 2, sampleHeap⟩ ∧
    GC.ReadBarrier sampleHeap 1 = Except.ok ⟨NULL, NULL, sampleHeap⟩ ∧
    GC.ReadBarrier sampleHeap NULL = Except.ok ⟨NULL, NULL, sampleHeap⟩ :=
  ⟨(C1_ReadBarrier_contract sampleHeap 2).1 (Or.inr sampleHeap_alive),
   (C1_ReadBarrier_contract sampleHeap 1).2.1 sampleHeap_euthanized,
   (C1_ReadBarrier_contract sampleHeap NULL).1 (Or.inl rfl)⟩

/-- C2. The read barrier for a const pointer `GC::ReadBarrier(const T*& obj)`: on every slot
a program can hold it returns null exactly when the slot is null or its referent has
`OF_EuthanizeMe` set, the slot's value otherwise, and the slot and object memory are the
same afterwards in every case. -/
theorem C2_ReadBarrierConst_contract (heap : Heap) (obj : Ptr) (hv : ValidSlot heap obj) :
    ∃ r, GC.ReadBarrierConst heap obj = Except.ok r ∧
      (r.ret = NULL ↔ (obj = NULL ∨ Euthanized heap obj)) ∧
      (¬ (obj = NULL ∨ Euthanized heap obj) → r.ret = obj) ∧
      r.slot = obj ∧ r.heap = heap := by
  rcases hv.cases with h | h | h
  · subst h
    exact ⟨_, ReadBarrierConst_null heap, by simp, by simp, rfl, rfl⟩
  · refine ⟨_, ReadBarrierConst_alive h, ?_, fun _ => rfl, rfl, rfl⟩
    constructor
    · intro hr
      exact Or.inl hr
    · rintro (hn | he)
      · exact hn
      · exact absurd he h.not_euthanized
  · exact ⟨_, ReadBarrierConst_euthanized h, ⟨fun _ => Or.inr h, fun _ => rfl⟩,
      fun hn => absurd (Or.inr h) hn, rfl, rfl⟩

/-- C2 at the sample memory, on the slot holding the dying object at address 1. -/
theorem C2_ReadBarrierConst_contract_witness :
    ∃ r, GC.ReadBarrierConst sampleHeap 1 = Except.ok r ∧
      (r.ret = NULL ↔ ((1 : Ptr) = NULL ∨ Euthanized sampleHeap 1)) ∧
      (¬ ((1 : Ptr) = NULL ∨ Euthanized sampleHeap 1) → r.ret = 1) ∧
      r.slot = 1 ∧ r.heap = sampleHeap :=
  C2_ReadBarrierConst_contract sampleHeap 1 (Or.inr ⟨⟨OF_EuthanizeMe ||| OF_White0⟩, rfl⟩)

/-! ## Repeated reads -/

theorem Get_const_null (heap : Heap) :
    TObjPtr.Get_const heap ⟨NULL⟩ = Except.ok ⟨NULL, NULL, heap⟩ := by
  simp [TObjPtr.Get_const, ReadBarrier_null]

theorem Get_const_euthanized {heap : Heap} {p : Ptr} (h : Euthanized heap p) :
    TObjPtr.Get_const heap ⟨p⟩ = Except.ok ⟨NULL, p, heap⟩ := by
  simp [TObjPtr.Get_const, ReadBarrier_euthanized h]

/-- A read of a slot that is null or holds a dying object gives null, leaves object memory
alone, and leaves the slot null or as it was. -/
theorem ReadOp.run_dead (heap : Heap) (slot : Ptr) (op : ReadOp)
    (h : slot = NULL ∨ Euthanized heap slot) :
    ∃ s, op.run heap slot = Except.ok ⟨NULL, s, heap⟩ ∧ (s = NULL ∨ Euthanized heap s) := by
  rcases h with h | h
  · subst h
    cases op with
    | ReadBarrierConst => exact ⟨NULL, ReadBarrierConst_null heap, Or.inl rfl⟩
    | Get_const => exact ⟨NULL, Get_const_null heap, Or.inl rfl⟩
    | _ => exact ⟨NULL, ReadBarrier_null heap, Or.inl rfl⟩
  · cases op with
    | ReadBarrierConst => exact ⟨slot, ReadBarrierConst_euthanized h, Or.inr h⟩
    | Get_const => exact ⟨slot, Get_const_euthanized h, Or.inr h⟩
    | _ => exact ⟨NULL, ReadBarrier_euthanized h, Or.inl rfl⟩

theorem readAll_dead (heap : Heap) (ops : List ReadOp) :
    ∀ slot, (slot = NULL ∨ Euthanized heap slot) →
      ∃ s, readAll heap slot ops = Except.ok (List.replicate ops.length NULL, s, heap) ∧
        (s = NULL ∨ Euthanized heap s) := by
  induction ops with
  | nil =>
    intro slot h
    exact ⟨slot, rfl, h⟩
  | cons op ops ih =>
    intro slot h
    obtain ⟨s, hrun, hs⟩ := ReadOp.run_dead heap slot op h
    obtain ⟨t, hrest, ht⟩ := ih s hs
    refine ⟨t, ?_, ht⟩
    simp [readAll, hrun, hrest, List.replicate_succ]

/-- C3 (L3). On a slot whose referent has `OF_EuthanizeMe` set, any finite sequence of reads
through the barrier (`GC::ReadBarrier` in either overload, `Get`, `Get const`, `operator T`,
`operator->` const or not), with nothing assigned to the slot in between, runs to its end
and every read of it gives null; object memory is the same at the end. -/
theorem C3_read_barrier_determinism (heap : Heap) (slot : Ptr) (ops : List ReadOp)
    (h : Euthanized heap slot) :
    ∃ vs s, readAll heap slot ops = Except.ok (vs, s, heap) ∧
      vs.length = ops.length ∧ ∀ v ∈ vs, v = NULL := by
  obtain ⟨s, hs, _⟩ := readAll_dead heap ops slot (Or.inr h)
  refine ⟨_, s, hs, by simp, ?_⟩
  intro v hv
  exact (List.mem_replicate.mp hv).2

/-- C3 at the sample memory: seven reads, one of each kind, of the slot holding the dying
object at address 1. -/
theorem C3_read_barrier_determinism_witness :
    ∃ vs s, readAll sampleHeap 1
        [ReadOp.ReadBarrierConst, ReadOp.Get_const, ReadOp.operator_arrow_const, ReadOp.Get,
         ReadOp.operator_T, ReadOp.operator_arrow, ReadOp.ReadBarrier]
        = Except.ok (vs, s, sampleHeap) ∧
      vs.length = [ReadOp.ReadBarrierConst, ReadOp.Get_const, ReadOp.operator_arrow_const,
        ReadOp.Get, ReadOp.operator_T, ReadOp.operator_arrow, ReadOp.ReadBarrier].length ∧
      ∀ v ∈ vs, v = NULL :=
  C3_read_barrier_determinism sampleHeap 1 _ sampleHeap_euthanized

/-! ## Comparisons and `ForceGet` -/

theorem operator_eq_of_barrier {heap : Heap} {p : TObjPtr} {r : Outcome Ptr} (u : Ptr)
    (h : GC.ReadBarrier heap p.pp = Except.ok r) :
    TObjPtr.operator_eq heap p u = Except.ok ⟨r.ret == u, r.slot, r.heap⟩ := by
  simp [TObjPtr.operator_eq, TObjPtr.o, h]

theorem operator_ne_of_barrier {heap : Heap} {p : TObjPtr} {r : Outcome Ptr} (u : Ptr)
    (h : GC.ReadBarrier heap p.pp = Except.ok r) :
    TObjPtr.operator_ne heap p u = Except.ok ⟨r.ret != u, r.slot, r.heap⟩ := by
  simp [TObjPtr.operator_ne, TObjPtr.o, h]

/-- C4, the claim as written fails: the `TObjPtr` stores the raw pointer 1 and is compared
with the raw pointer 1, whose referent is dying; `==` answers false, `!=` answers true, and
the stored pointer is null afterwards. -/
theorem C4_compare_raw_counterexample :
    (⟨1⟩ : TObjPtr).pp = 1 ∧ Euthanized sampleHeap 1 ∧
    TObjPtr.operator_eq sampleHeap ⟨1⟩ 1 = Except.ok ⟨false, NULL, sampleHeap⟩ ∧
    TObjPtr.operator_ne sampleHeap ⟨1⟩ 1 = Except.ok ⟨true, NULL, sampleHeap⟩ :=
  ⟨rfl, sampleHeap_euthanized, rfl, rfl⟩

/-- C4, amended. Comparison of a `TObjPtr` with a raw pointer `u` compares what the storing
read barrier returns for the stored pointer. When the stored pointer is null or its referent
has `OF_EuthanizeMe` clear, `==` is true iff the stored pointer equals `u`, `!=` is true iff
it differs, and the stored pointer is kept. When its referent has `OF_EuthanizeMe` set, `==`
is true iff `u` is null, `!=` is true iff `u` is not null, and the stored pointer is null
afterwards. -/
theorem C4_compare_raw_through_barrier (heap : Heap) (p : TObjPtr) (u : Ptr) :
    ((p.pp = NULL ∨ Alive heap p.pp) →
      ∃ e n, TObjPtr.operator_eq heap p u = Except.ok ⟨e, p.pp, heap⟩ ∧
        TObjPtr.operator_ne heap p u = Except.ok ⟨n, p.pp, heap⟩ ∧
        (e = true ↔ p.pp = u) ∧ (n = true ↔ p.pp ≠ u)) ∧
    (Euthanized heap p.pp →
      ∃ e n, TObjPtr.operator_eq heap p u = Except.ok ⟨e, NULL, heap⟩ ∧
        TObjPtr.operator_ne heap p u = Except.ok ⟨n, NULL, heap⟩ ∧
        (e = true ↔ u = NULL) ∧ (n = true ↔ u ≠ NULL)) := by
  constructor
  · intro h
    have hb : GC.ReadBarrier heap p.pp = Except.ok ⟨p.pp, p.pp, heap⟩ := by
      rcases h with h | h
      · rw [h]
        exact ReadBarrier_null heap
      · exact ReadBarrier_alive h
    exact ⟨_, _, operator_eq_of_barrier u hb, operator_ne_of_barrier u hb, by simp, by simp⟩
  · intro h
    have hb := ReadBarrier_euthanized h
    refine ⟨_, _, operator_eq_of_barrier u hb, operator_ne_of_barrier u hb, ?_, ?_⟩
    · rw [beq_iff_eq]
      exact eq_comm
    · rw [bne_iff_ne]
      exact ne_comm

/-- C4 amended, at the sample memory: the healthy object at 2 compares equal to 2, the dying
object at 1 compares equal to null only. -/
theorem C4_compare_raw_through_barrier_witness :
    (∃ e n, TObjPtr.operator_eq sampleHeap ⟨2⟩ 2 = Except.ok ⟨e, 2, sampleHeap⟩ ∧
        TObjPtr.operator_ne sampleHeap ⟨2⟩ 2 = Except.ok ⟨n, 2, sampleHeap⟩ ∧
        (e = true ↔ (2 : Ptr) = 2) ∧ (n = true ↔ (2 : Ptr) ≠ 2)) ∧
    (∃ e n, TObjPtr.operator_eq sampleHeap ⟨1⟩ 1 = Except.ok ⟨e, NULL, sampleHeap⟩ ∧
        TObjPtr.operator_ne sampleHeap ⟨1⟩ 1 = Except.ok ⟨n, NULL, sampleHeap⟩ ∧
        (e = true ↔ (1 : Ptr) = NULL) ∧ (n = true ↔ (1 : Ptr) ≠ NULL)) :=
  ⟨(C4_compare_raw_through_barrier sampleHeap ⟨2⟩ 2).1
      (Or.inr sampleHeap_alive),
   (C4_compare_raw_through_barrier sampleHeap ⟨1⟩ 1).2
      sampleHeap_euthanized⟩

/-- C5. Comparison of two `TObjPtr` compares the stored raw pointers: `p == u` is true iff
`p.ForceGet() == u.ForceGet()`, that is iff the stored pointers are equal, whatever flags
the referents carry, and both stored pointers and object memory are the same afterwards. -/
theorem C5_compare_objptr_raw (heap : Heap) (p u : TObjPtr) :
    ((TObjPtr.operator_eq_objptr heap p u).ret = true ↔
      (TObjPtr.ForceGet heap p).ret = (TObjPtr.ForceGet heap u).ret) ∧
    ((TObjPtr.operator_eq_objptr heap p u).ret = true ↔ p.pp = u.pp) ∧
    (TObjPtr.operator_eq_objptr heap p u).lhs = p.pp ∧
    (TObjPtr.operator_eq_objptr heap p u).rhs = u.pp ∧
    (TObjPtr.operator_eq_objptr heap p u).heap = heap := by
  simp [TObjPtr.operator_eq_objptr, TObjPtr.ForceGet]

/-- C6. The member `ForceGet` returns the stored raw pointer as it is, with the stored
pointer and object memory the same afterwards; when the referent has `OF_EuthanizeMe` set
the pointer returned is that non-null pointer, where the barrier would give null. -/
theorem C6_ForceGet_bypasses_barrier (heap : Heap) (p : TObjPtr) :
    TObjPtr.ForceGet heap p = ⟨p.pp, p.pp, heap⟩ ∧
    (Euthanized heap p.pp →
      (TObjPtr.ForceGet heap p).ret ≠ NULL ∧
      TObjPtr.Get heap p = Except.ok ⟨NULL, NULL, heap⟩) := by
  refine ⟨rfl, fun h => ⟨h.slot_ne_null, ?_⟩⟩
  exact ReadBarrier_euthanized h

/-- C6 at the sample memory: the dying object at address 1 is still what `ForceGet` returns. -/
theorem C6_ForceGet_bypasses_barrier_witness :
    (TObjPtr.ForceGet sampleHeap ⟨1⟩).ret ≠ NULL ∧
    TObjPtr.Get sampleHeap ⟨1⟩ = Except.ok ⟨NULL, NULL, sampleHeap⟩ :=
  (C6_ForceGet_bypasses_barrier sampleHeap ⟨1⟩).2
    sampleHeap_euthanized

/-- C7. The accesses `Get()`, `operator T()`, `operator->()` const or not, and
`barrier_cast<T>(p)` all return what `GC::ReadBarrier` returns on the stored pointer and
leave the stored pointer and object memory as it leaves them (a fault of the barrier being
a fault of each); when the referent has `OF_EuthanizeMe` set each returns null and the
stored pointer is null afterwards. -/
theorem C7_access_paths_refine_barrier (heap : Heap) (p : TObjPtr) :
    (TObjPtr.Get heap p = GC.ReadBarrier heap p.pp ∧
     TObjPtr.operator_T heap p = GC.ReadBarrier heap p.pp ∧
     TObjPtr.operator_arrow heap p = GC.ReadBarrier heap p.pp ∧
     TObjPtr.operator_arrow_const heap p = GC.ReadBarrier heap p.pp ∧
     barrier_cast heap p = GC.ReadBarrier heap p.pp) ∧
    (Euthanized heap p.pp →
      TObjPtr.Get heap p = Except.ok ⟨NULL, NULL, heap⟩ ∧
      TObjPtr.operator_T heap p = Except.ok ⟨NULL, NULL, heap⟩ ∧
      TObjPtr.operator_arrow heap p = Except.ok ⟨NULL, NULL, heap⟩ ∧
      TObjPtr.operator_arrow_const heap p = Except.ok ⟨NULL, NULL, heap⟩ ∧
      barrier_cast heap p = Except.ok ⟨NULL, NULL, heap⟩) := by
  have hcast : barrier_cast heap p = GC.ReadBarrier heap p.pp := by
    unfold barrier_cast TObjPtr.operator_T static_cast
    cases GC.ReadBarrier heap p.pp <;> rfl
  refine ⟨⟨rfl, rfl, rfl, rfl, hcast⟩, fun h => ?_⟩
  have hb := ReadBarrier_euthanized h
  exact ⟨hb, hb, hb, hb, hcast.trans hb⟩

/-- C7 at the sample memory, on a `TObjPtr` storing the dying object at address 1. -/
theorem C7_access_paths_refine_barrier_witness :
    TObjPtr.Get sampleHeap ⟨1⟩ = Except.ok ⟨NULL, NULL, sampleHeap⟩ ∧
    TObjPtr.operator_T sampleHeap ⟨1⟩ = Except.ok ⟨NULL, NULL, sampleHeap⟩ ∧
    TObjPtr.operator_arrow sampleHeap ⟨1⟩ = Except.ok ⟨NULL, NULL, sampleHeap⟩ ∧
    TObjPtr.operator_arrow_const sampleHeap ⟨1⟩ = Except.ok ⟨NULL, NULL, sampleHeap⟩ ∧
    barrier_cast sampleHeap ⟨1⟩ = Except.ok ⟨NULL, NULL, sampleHeap⟩ :=
  (C7_access_paths_refine_barrier sampleHeap ⟨1⟩).2
    sampleHeap_euthanized

/-! ## The allocation ledger -/

/-- C8. After `GC::StartCollection`, `Threshold` is `AllocBytes`, every other variable of
the collector is as before (`AllocBytes`, the two running counters, `State` and
`CurrentWhite` among them), and so `AllocBytes >= Threshold` holds. -/
theorem C8_StartCollection_forces_trigger (g : GC.Globals) :
    (GC.StartCollection g).Threshold = g.AllocBytes ∧
    (GC.StartCollection g).AllocBytes = g.AllocBytes ∧
    (GC.StartCollection g).RunningAllocBytes = g.RunningAllocBytes ∧
    (GC.StartCollection g).RunningDeallocBytes = g.RunningDeallocBytes ∧
    (GC.StartCollection g).State = g.State ∧
    (GC.StartCollection g).CurrentWhite = g.CurrentWhite ∧
    (GC.StartCollection g).Gray = g.Gray ∧
    (GC.StartCollection g).Root = g.Root ∧
    (GC.StartCollection g).SweepPos = g.SweepPos ∧
    (GC.StartCollection g).Pause = g.Pause ∧
    (GC.StartCollection g).StepMul = g.StepMul ∧
    (GC.StartCollection g).FinalGC = g.FinalGC ∧
    (GC.StartCollection g).AllocBytes ≥ (GC.StartCollection g).Threshold := by
  simp [GC.StartCollection]

theorem size_add_eq {w a b : Nat} (h : a + b < 2 ^ w) : GC.size_add w a b = a + b :=
  Nat.mod_eq_of_lt h

theorem size_sub_eq {w a b : Nat} (hb : b ≤ a) (ha : a < 2 ^ w) :
    GC.size_sub w a b = a - b := by
  unfold GC.size_sub
  have hbm : b % 2 ^ w = b := Nat.mod_eq_of_lt (lt_of_le_of_lt hb ha)
  have hsum : a + (2 ^ w - b) = (a - b) + 2 ^ w := by omega
  rw [hbm, hsum, Nat.add_mod_right]
  exact Nat.mod_eq_of_lt (lt_of_le_of_lt (Nat.sub_le a b) ha)

/-- One call that stays in range moves `AllocBytes` by exactly what it reports. -/
theorem Report.run_AllocBytes (w : Nat) (g : GC.Globals) (r : Report) (rs : List Report)
    (hg : g.AllocBytes < 2 ^ w) (hr : InRange w g.AllocBytes (r :: rs)) :
    (r.run w g).AllocBytes + r.freed = g.AllocBytes + r.allocated ∧
    (r.run w g).AllocBytes < 2 ^ w ∧ InRange w (r.run w g).AllocBytes rs := by
  cases r with
  | Alloc n =>
    obtain ⟨h1, h2⟩ := hr
    have e : (GC.ReportAlloc w g n).AllocBytes = g.AllocBytes + n := size_add_eq h1
    simp only [Report.run, Report.freed, Report.allocated, e]
    exact ⟨rfl, h1, h2⟩
  | Dealloc n =>
    obtain ⟨h1, h2⟩ := hr
    have e : (GC.ReportDealloc w g n).AllocBytes = g.AllocBytes - n := size_sub_eq h1 hg
    simp only [Report.run, Report.freed, Report.allocated, e]
    exact ⟨by omega, by omega, h2⟩
  | Realloc a b =>
    obtain ⟨h1, h2, h3⟩ := hr
    have e : (GC.ReportRealloc w g a b).AllocBytes = g.AllocBytes - a + b := by
      unfold GC.ReportRealloc
      by_cases hab : a < b
      · have hs : GC.size_sub w b a = b - a := size_sub_eq (le_of_lt hab) (by omega)
        have ht : GC.size_add w g.AllocBytes (b - a) = g.AllocBytes + (b - a) :=
          size_add_eq (by omega)
        simp only [hab, if_true, hs, GC.ReportAlloc, ht]
        omega
      · have hs : GC.size_sub w a b = a - b := size_sub_eq (by omega) (by omega)
        have ht : GC.size_sub w g.AllocBytes (a - b) = g.AllocBytes - (a - b) :=
          size_sub_eq (by omega) hg
        simp only [hab, if_false, hs, GC.ReportDealloc, ht]
        omega
    simp only [Report.run, Report.freed, Report.allocated, e]
    exact ⟨by omega, h2, h3⟩

theorem runReports_AllocBytes (w : Nat) (rs : List Report) :
    ∀ g : GC.Globals, g.AllocBytes < 2 ^ w → InRange w g.AllocBytes rs →
      (runReports w g rs).AllocBytes + totalFreed rs = g.AllocBytes + totalAllocated rs := by
  induction rs with
  | nil =>
    intro g _ _
    simp [runReports, totalFreed, totalAllocated]
  | cons r rs ih =>
    intro g hg hr
    obtain ⟨h1, h2, h3⟩ := Report.run_AllocBytes w g r rs hg hr
    have h4 := ih (r.run w g) h2 h3
    simp only [runReports, totalFreed, totalAllocated, List.map_cons, List.sum_cons] at h4 ⊢
    omega

/-- C9 (I3). For every finite sequence of `ReportAlloc`, `ReportDealloc` and `ReportRealloc`
calls started at `AllocBytes = a0`, in which no call frees more bytes than are live when it
is made and the live bytes stay in the range of `size_t`, the final `AllocBytes` is `a0`
plus all bytes reported allocated minus all bytes reported freed, a `ReportRealloc(old, new)`
freeing `old` and allocating `new`. -/
theorem C9_ledger_invariant (w : Nat) (g : GC.Globals) (rs : List Report)
    (hg : g.AllocBytes < 2 ^ w) (hr : InRange w g.AllocBytes rs) :
    ((runReports w g rs).AllocBytes : Int) =
      (g.AllocBytes : Int) + (totalAllocated rs : Int) - (totalFreed rs : Int) ∧
    totalFreed rs ≤ g.AllocBytes + totalAllocated rs := by
  have h := runReports_AllocBytes w rs g hg hr
  constructor <;> omega

/-- C9 on a 64-bit ledger holding 1000 bytes: allocate 24, grow that block to 100, free it,
shrink a block of 500 to 200; 700 bytes are live at the end. -/
theorem C9_ledger_invariant_witness :
    ((runReports 64 sampleGlobals
        [Report.Alloc 24, Report.Realloc 24 100, Report.Dealloc 100,
         Report.Realloc 500 200]).AllocBytes : Int) =
      (sampleGlobals.AllocBytes : Int) +
        (totalAllocated [Report.Alloc 24, Report.Realloc 24 100, Report.Dealloc 100,
          Report.Realloc 500 200] : Int) -
        (totalFreed [Report.Alloc 24, Report.Realloc 24 100, Report.Dealloc 100,
          Report.Realloc 500 200] : Int) ∧
    totalFreed [Report.Alloc 24, Report.Realloc 24 100, Report.Dealloc 100,
        Report.Realloc 500 200] ≤
      sampleGlobals.AllocBytes +
        totalAllocated [Report.Alloc 24, Report.Realloc 24 100, Report.Dealloc 100,
          Report.Realloc 500 200] :=
  C9_ledger_invariant 64 sampleGlobals _ (by decide) (by simp [InRange, sampleGlobals])

theorem size_sub_self {w n : Nat} (hn : n < 2 ^ w) : GC.size_sub w n n = 0 := by
  rw [size_sub_eq (le_refl n) hn, Nat.sub_self]

theorem size_sub_zero {w a : Nat} (ha : a < 2 ^ w) : GC.size_sub w a 0 = a := by
  rw [size_sub_eq (Nat.zero_le a) ha, Nat.sub_zero]

/-- Freeing `oldsize` and then allocating `newsize` moves `AllocBytes`, modulo `2 ^ w`, to
where the one call `ReportRealloc(oldsize, newsize)` moves it. -/
theorem ReportRealloc_AllocBytes (w : Nat) (g : GC.Globals) (oldsize newsize : Nat)
    (ho : oldsize < 2 ^ w) (hn : newsize < 2 ^ w) :
    (GC.ReportRealloc w g oldsize newsize).AllocBytes =
      (GC.ReportAlloc w (GC.ReportDealloc w g oldsize) newsize).AllocBytes := by
  have hom : oldsize % 2 ^ w = oldsize := Nat.mod_eq_of_lt ho
  have rhs : (GC.ReportAlloc w (GC.ReportDealloc w g oldsize) newsize).AllocBytes =
      (g.AllocBytes + (2 ^ w - oldsize) + newsize) % 2 ^ w := by
    simp only [GC.ReportAlloc, GC.ReportDealloc, GC.size_add, GC.size_sub, hom,
      Nat.mod_add_mod]
  rw [rhs]
  unfold GC.ReportRealloc
  by_cases hab : oldsize < newsize
  · have hs : GC.size_sub w newsize oldsize = newsize - oldsize :=
      size_sub_eq (le_of_lt hab) hn
    have hsum : g.AllocBytes + (2 ^ w - oldsize) + newsize =
        g.AllocBytes + (newsize - oldsize) + 2 ^ w := by omega
    simp only [hab, if_true, hs, GC.ReportAlloc, GC.size_add, hsum, Nat.add_mod_right]
  · have hle : newsize ≤ oldsize := by omega
    have hs : GC.size_sub w oldsize newsize = oldsize - newsize := size_sub_eq hle ho
    have hdm : (oldsize - newsize) % 2 ^ w = oldsize - newsize :=
      Nat.mod_eq_of_lt (lt_of_le_of_lt (Nat.sub_le _ _) ho)
    have hsum : g.AllocBytes + (2 ^ w - oldsize) + newsize =
        g.AllocBytes + (2 ^ w - (oldsize - newsize)) := by omega
    rw [if_neg hab, hs]
    simp only [GC.ReportDealloc, GC.size_sub, hdm, hsum]

/-- C10. For `size_t` arguments, `GC::ReportRealloc(oldsize, newsize)` is
`ReportAlloc(newsize - oldsize)` when `oldsize < newsize` and
`ReportDealloc(oldsize - newsize)` otherwise, the subtraction it makes being the exact
difference (no wrap below zero); in the first case `RunningDeallocBytes` is not written, in
the second `RunningAllocBytes` is not; its effect on `AllocBytes` is that of
`ReportDealloc(oldsize)` followed by `ReportAlloc(newsize)`, modulo `2 ^ w`; and
`ReportRealloc(n, n)` leaves every variable of a collector whose counters are `size_t` as
it was. -/
theorem C10_ReportRealloc_contract (w : Nat) (g : GC.Globals) (oldsize newsize : Nat)
    (ho : oldsize < 2 ^ w) (hn : newsize < 2 ^ w) :
    (oldsize < newsize →
      GC.ReportRealloc w g oldsize newsize = GC.ReportAlloc w g (newsize - oldsize) ∧
      (GC.size_sub w newsize oldsize : Int) = (newsize : Int) - (oldsize : Int) ∧
      (GC.ReportRealloc w g oldsize newsize).RunningDeallocBytes = g.RunningDeallocBytes ∧
      (GC.ReportRealloc w g oldsize newsize).RunningAllocBytes =
        GC.size_add w g.RunningAllocBytes (newsize - oldsize)) ∧
    (¬ oldsize < newsize →
      GC.ReportRealloc w g oldsize newsize = GC.ReportDealloc w g (oldsize - newsize) ∧
      (GC.size_sub w oldsize newsize : Int) = (oldsize : Int) - (newsize : Int) ∧
      (GC.ReportRealloc w g oldsize newsize).RunningAllocBytes = g.RunningAllocBytes ∧
      (GC.ReportRealloc w g oldsize newsize).RunningDeallocBytes =
        GC.size_add w g.RunningDeallocBytes (oldsize - newsize)) ∧
    (GC.ReportRealloc w g oldsize newsize).AllocBytes =
      (GC.ReportAlloc w (GC.ReportDealloc w g oldsize) newsize).AllocBytes ∧
    (oldsize = newsize → g.AllocBytes < 2 ^ w → g.RunningDeallocBytes < 2 ^ w →
      GC.ReportRealloc w g oldsize newsize = g) := by
  refine ⟨fun hab => ?_, fun hab => ?_, ReportRealloc_AllocBytes w g oldsize newsize ho hn,
    fun heq ha hd => ?_⟩
  · have hs : GC.size_sub w newsize oldsize = newsize - oldsize :=
      size_sub_eq (le_of_lt hab) hn
    have hr : GC.ReportRealloc w g oldsize newsize = GC.ReportAlloc w g (newsize - oldsize) := by
      simp only [GC.ReportRealloc, hab, if_true, hs]
    refine ⟨hr, ?_, ?_, ?_⟩
    · rw [hs]
      omega
    · rw [hr]
      rfl
    · rw [hr]
      rfl
  · have hle : newsize ≤ oldsize := by omega
    have hs : GC.size_sub w oldsize newsize = oldsize - newsize := size_sub_eq hle ho
    have hr : GC.ReportRealloc w g oldsize newsize =
        GC.ReportDealloc w g (oldsize - newsize) := by
      simp only [GC.ReportRealloc, hab, if_false, hs]
    refine ⟨hr, ?_, ?_, ?_⟩
    · rw [hs]
      omega
    · rw [hr]
      rfl
    · rw [hr]
      rfl
  · subst heq
    have hr : GC.ReportRealloc w g oldsize oldsize = GC.ReportDealloc w g 0 := by
      simp only [GC.ReportRealloc, lt_irrefl, if_false, size_sub_self ho]
    have h1 : GC.size_sub w g.AllocBytes 0 = g.AllocBytes := size_sub_zero ha
    have h2 : GC.size_add w g.RunningDeallocBytes 0 = g.RunningDeallocBytes :=
      size_add_eq hd
    rw [hr]
    simp only [GC.ReportDealloc, h1, h2]

/-- C10 on a 64-bit ledger: growing a block from 24 to 100 bytes is `ReportAlloc(76)`,
shrinking one from 500 to 200 is `ReportDealloc(300)`, and `ReportRealloc(64, 64)` changes
nothing. -/
theorem C10_ReportRealloc_contract_witness :
    GC.ReportRealloc 64 sampleGlobals 24 100 = GC.ReportAlloc 64 sampleGlobals (100 - 24) ∧
    GC.ReportRealloc 64 sampleGlobals 500 200 = GC.ReportDealloc 64 sampleGlobals (500 - 200) ∧
    (GC.ReportRealloc 64 sampleGlobals 24 100).AllocBytes =
      (GC.ReportAlloc 64 (GC.ReportDealloc 64 sampleGlobals 24) 100).AllocBytes ∧
    GC.ReportRealloc 64 sampleGlobals 64 64 = sampleGlobals :=
  ⟨((C10_ReportRealloc_contract 64 sampleGlobals 24 100 (by decide) (by decide)).1
      (by decide)).1,
   ((C10_ReportRealloc_contract 64 sampleGlobals 500 200 (by decide) (by decide)).2.1
      (by decide)).1,
   (C10_ReportRealloc_contract 64 sampleGlobals 24 100 (by decide) (by decide)).2.2.1,
   (C10_ReportRealloc_contract 64 sampleGlobals 64 64 (by decide) (by decide)).2.2.2
      rfl (by decide) (by decide)⟩

/-! ## The running counters -/

theorem size_add_lt (w a b : Nat) : GC.size_add w a b < 2 ^ w :=
  Nat.mod_lt _ (Nat.two_pow_pos w)

theorem size_sub_lt (w a b : Nat) : GC.size_sub w a b < 2 ^ w :=
  Nat.mod_lt _ (Nat.two_pow_pos w)

theorem size_add_cast (w a b : Nat) :
    ((GC.size_add w a b : Nat) : ZMod (2 ^ w)) = (a : ZMod (2 ^ w)) + (b : ZMod (2 ^ w)) := by
  unfold GC.size_add
  rw [ZMod.natCast_mod, Nat.cast_add]

theorem size_sub_cast (w a b : Nat) :
    ((GC.size_sub w a b : Nat) : ZMod (2 ^ w)) = (a : ZMod (2 ^ w)) - (b : ZMod (2 ^ w)) := by
  unfold GC.size_sub
  have hle : b % 2 ^ w ≤ 2 ^ w := le_of_lt (Nat.mod_lt _ (Nat.two_pow_pos w))
  rw [ZMod.natCast_mod, Nat.cast_add, Nat.cast_sub hle, ZMod.natCast_self, ZMod.natCast_mod]
  ring

/-- Two `size_t` values with the same residue are the same value. -/
theorem eq_of_cast_eq {w a b : Nat} (ha : a < 2 ^ w) (hb : b < 2 ^ w)
    (h : (a : ZMod (2 ^ w)) = (b : ZMod (2 ^ w))) : a = b := by
  have h2 := (ZMod.natCast_eq_natCast_iff' a b (2 ^ w)).mp h
  rwa [Nat.mod_eq_of_lt ha, Nat.mod_eq_of_lt hb] at h2

/-- What one call with `size_t` arguments does to a ledger of `size_t` counters. -/
theorem Report.run_counters (w : Nat) (g : GC.Globals) (r : Report)
    (hA : g.AllocBytes < 2 ^ w) (hRA : g.RunningAllocBytes < 2 ^ w)
    (hRD : g.RunningDeallocBytes < 2 ^ w) (hr : r.SizeArgs w) :
    (r.run w g).RunningAllocBytes = GC.size_add w g.RunningAllocBytes r.added ∧
    (r.run w g).RunningDeallocBytes = GC.size_add w g.RunningDeallocBytes r.subtracted ∧
    (r.run w g).AllocBytes =
      GC.size_sub w (GC.size_add w g.AllocBytes r.added) r.subtracted ∧
    (r.run w g).Threshold = g.Threshold := by
  have z1 : ∀ x, x < 2 ^ w → GC.size_add w x 0 = x := fun x hx => size_add_eq hx
  have z2 : ∀ x, x < 2 ^ w → GC.size_sub w x 0 = x := fun x hx => size_sub_zero hx
  cases r with
  | Alloc n =>
    simp [Report.run, Report.added, Report.subtracted, GC.ReportAlloc, z1 _ hRD,
      z2 _ (size_add_lt w g.AllocBytes n)]
  | Dealloc n =>
    simp [Report.run, Report.added, Report.subtracted, GC.ReportDealloc, z1 _ hRA, z1 _ hA]
  | Realloc a b =>
    obtain ⟨ha, hb⟩ := hr
    by_cases hab : a < b
    · have hs : GC.size_sub w b a = b - a := size_sub_eq (le_of_lt hab) hb
      simp [Report.run, Report.added, Report.subtracted, GC.ReportRealloc, hab, hs,
        GC.ReportAlloc, z1 _ hRD, z2 _ (size_add_lt w g.AllocBytes (b - a))]
    · have hs : GC.size_sub w a b = a - b := size_sub_eq (by omega) ha
      simp [Report.run, Report.added, Report.subtracted, GC.ReportRealloc, hab, hs,
        GC.ReportDealloc, z1 _ hRA, z1 _ hA]

/-- The counters after a list of calls, as residues modulo `2 ^ w`, and their bounds. -/
theorem runReports_counters (w : Nat) (rs : List Report) :
    ∀ g : GC.Globals, g.AllocBytes < 2 ^ w → g.RunningAllocBytes < 2 ^ w →
      g.RunningDeallocBytes < 2 ^ w → (∀ r ∈ rs, r.SizeArgs w) →
      (((runReports w g rs).RunningAllocBytes : Nat) : ZMod (2 ^ w)) =
        (g.RunningAllocBytes : ZMod (2 ^ w)) + (totalAdded rs : ZMod (2 ^ w)) ∧
      (((runReports w g rs).RunningDeallocBytes : Nat) : ZMod (2 ^ w)) =
        (g.RunningDeallocBytes : ZMod (2 ^ w)) + (totalSubtracted rs : ZMod (2 ^ w)) ∧
      (((runReports w g rs).AllocBytes : Nat) : ZMod (2 ^ w)) =
        (g.AllocBytes : ZMod (2 ^ w)) + (totalAdded rs : ZMod (2 ^ w)) -
          (totalSubtracted rs : ZMod (2 ^ w)) ∧
      (runReports w g rs).Threshold = g.Threshold ∧
      (runReports w g rs).AllocBytes < 2 ^ w ∧
      (runReports w g rs).RunningAllocBytes < 2 ^ w ∧
      (runReports w g rs).RunningDeallocBytes < 2 ^ w := by
  induction rs with
  | nil =>
    intro g hA hRA hRD _
    simp [runReports, totalAdded, totalSubtracted, hA, hRA, hRD]
  | cons r rs ih =>
    intro g hA hRA hRD hargs
    obtain ⟨e1, e2, e3, e4⟩ :=
      Report.run_counters w g r hA hRA hRD (hargs r (List.mem_cons_self r rs))
    have b1 : (r.run w g).AllocBytes < 2 ^ w := by
      rw [e3]
      exact size_sub_lt w _ _
    have b2 : (r.run w g).RunningAllocBytes < 2 ^ w := by
      rw [e1]
      exact size_add_lt w _ _
    have b3 : (r.run w g).RunningDeallocBytes < 2 ^ w := by
      rw [e2]
      exact size_add_lt w _ _
    obtain ⟨i1, i2, i3, i4, i5, i6, i7⟩ :=
      ih (r.run w g) b1 b2 b3 (fun x hx => hargs x (List.mem_cons_of_mem r hx))
    refine ⟨?_, ?_, ?_, ?_, i5, i6, i7⟩
    · simp only [runReports, totalAdded, List.map_cons, List.sum_cons, Nat.cast_add]
      rw [totalAdded] at i1
      rw [i1, e1, size_add_cast]
      ring
    · simp only [runReports, totalSubtracted, List.map_cons, List.sum_cons, Nat.cast_add]
      rw [totalSubtracted] at i2
      rw [i2, e2, size_add_cast]
      ring
    · simp only [runReports, totalAdded, totalSubtracted, List.map_cons, List.sum_cons,
        Nat.cast_add]
      rw [totalAdded, totalSubtracted] at i3
      rw [i3, e3, size_sub_cast, size_add_cast]
      ring
    · simp only [runReports]
      rw [i4, e4]

theorem totalAdded_append (xs ys : List Report) :
    totalAdded (xs ++ ys) = totalAdded xs + totalAdded ys := by
  simp [totalAdded, List.map_append, List.sum_append]

theorem totalSubtracted_append (xs ys : List Report) :
    totalSubtracted (xs ++ ys) = totalSubtracted xs + totalSubtracted ys := by
  simp [totalSubtracted, List.map_append, List.sum_append]

/-- While its sum stays in range, `RunningAllocBytes` holds the sum itself. -/
theorem runReports_RunningAllocBytes_exact (w : Nat) (g : GC.Globals) (rs : List Report)
    (hA : g.AllocBytes < 2 ^ w) (hRA : g.RunningAllocBytes < 2 ^ w)
    (hRD : g.RunningDeallocBytes < 2 ^ w) (hargs : ∀ r ∈ rs, r.SizeArgs w)
    (h : g.RunningAllocBytes + totalAdded rs < 2 ^ w) :
    (runReports w g rs).RunningAllocBytes = g.RunningAllocBytes + totalAdded rs := by
  obtain ⟨c1, _, _, _, _, b2, _⟩ := runReports_counters w rs g hA hRA hRD hargs
  apply eq_of_cast_eq b2 h
  rw [c1, Nat.cast_add]

/-- While its sum stays in range, `RunningDeallocBytes` holds the sum itself. -/
theorem runReports_RunningDeallocBytes_exact (w : Nat) (g : GC.Globals) (rs : List Report)
    (hA : g.AllocBytes < 2 ^ w) (hRA : g.RunningAllocBytes < 2 ^ w)
    (hRD : g.RunningDeallocBytes < 2 ^ w) (hargs : ∀ r ∈ rs, r.SizeArgs w)
    (h : g.RunningDeallocBytes + totalSubtracted rs < 2 ^ w) :
    (runReports w g rs).RunningDeallocBytes = g.RunningDeallocBytes + totalSubtracted rs := by
  obtain ⟨_, c2, _, _, _, _, b3⟩ := runReports_counters w rs g hA hRA hRD hargs
  apply eq_of_cast_eq b3 h
  rw [c2, Nat.cast_add]

/-- C11, the claim as written fails: on a 64-bit ledger whose `RunningAllocBytes` is
`2 ^ 64 - 1`, one `ReportAlloc(2)` adds 2 bytes to `AllocBytes` and leaves
`RunningAllocBytes` at 1, below its value before the call. -/
theorem C11_running_counters_counterexample :
    fullCounterGlobals.RunningAllocBytes = 18446744073709551615 ∧
    (runReports 64 fullCounterGlobals [Report.Alloc 2]).AllocBytes =
      fullCounterGlobals.AllocBytes + 2 ∧
    (runReports 64 fullCounterGlobals [Report.Alloc 2]).RunningAllocBytes = 1 ∧
    (runReports 64 fullCounterGlobals [Report.Alloc 2]).RunningAllocBytes <
      fullCounterGlobals.RunningAllocBytes := by
  decide

/-- C11, amended. For every finite sequence of `ReportAlloc`, `ReportDealloc` and
`ReportRealloc` calls with `size_t` arguments on a ledger of `size_t` counters:
`RunningAllocBytes` ends at its old value plus the total bytes added to `AllocBytes`, and
`RunningDeallocBytes` at its old value plus the total bytes subtracted from it, both modulo
`2 ^ w`, and `AllocBytes` moves by the one total minus the other modulo `2 ^ w`; while the
sum for a counter stays below `2 ^ w` the counter grows by exactly that total and no call of
the sequence decreases it; `AllocBytes - RunningAllocBytes + RunningDeallocBytes` modulo
`2 ^ w` is the same before and after; and `Threshold` is the same after every call. -/
theorem C11_running_counters (w : Nat) (g : GC.Globals) (rs : List Report)
    (hA : g.AllocBytes < 2 ^ w) (hRA : g.RunningAllocBytes < 2 ^ w)
    (hRD : g.RunningDeallocBytes < 2 ^ w) (hargs : ∀ r ∈ rs, r.SizeArgs w) :
    (runReports w g rs).RunningAllocBytes = (g.RunningAllocBytes + totalAdded rs) % 2 ^ w ∧
    (runReports w g rs).RunningDeallocBytes =
      (g.RunningDeallocBytes + totalSubtracted rs) % 2 ^ w ∧
    ((runReports w g rs).AllocBytes + totalSubtracted rs) % 2 ^ w =
      (g.AllocBytes + totalAdded rs) % 2 ^ w ∧
    (g.RunningAllocBytes + totalAdded rs < 2 ^ w →
      (runReports w g rs).RunningAllocBytes = g.RunningAllocBytes + totalAdded rs ∧
      ∀ xs r ys, rs = xs ++ r :: ys →
        (runReports w g xs).RunningAllocBytes ≤
          (runReports w g (xs ++ [r])).RunningAllocBytes) ∧
    (g.RunningDeallocBytes + totalSubtracted rs < 2 ^ w →
      (runReports w g rs).RunningDeallocBytes = g.RunningDeallocBytes + totalSubtracted rs ∧
      ∀ xs r ys, rs = xs ++ r :: ys →
        (runReports w g xs).RunningDeallocBytes ≤
          (runReports w g (xs ++ [r])).RunningDeallocBytes) ∧
    ledgerBase w (runReports w g rs) = ledgerBase w g ∧
    (∀ xs ys, rs = xs ++ ys → (runReports w g xs).Threshold = g.Threshold) := by
  obtain ⟨c1, c2, c3, _, b1, b2, b3⟩ := runReports_counters w rs g hA hRA hRD hargs
  have hpos : 0 < 2 ^ w := Nat.two_pow_pos w
  refine ⟨?_, ?_, ?_, fun h => ⟨?_, ?_⟩, fun h => ⟨?_, ?_⟩, ?_, ?_⟩
  · apply eq_of_cast_eq b2 (Nat.mod_lt _ hpos)
    rw [c1, ZMod.natCast_mod, Nat.cast_add]
  · apply eq_of_cast_eq b3 (Nat.mod_lt _ hpos)
    rw [c2, ZMod.natCast_mod, Nat.cast_add]
  · apply (ZMod.natCast_eq_natCast_iff' _ _ _).mp
    rw [Nat.cast_add, Nat.cast_add, c3]
    ring
  · exact runReports_RunningAllocBytes_exact w g rs hA hRA hRD hargs h
  · intro xs r ys hsplit
    have hsplit2 : rs = (xs ++ [r]) ++ ys := by simp [hsplit]
    have t1 : totalAdded rs = totalAdded xs + totalAdded ([r] ++ ys) := by
      rw [hsplit]
      exact totalAdded_append xs (r :: ys)
    have t2 : totalAdded rs = totalAdded (xs ++ [r]) + totalAdded ys := by
      rw [hsplit2]
      exact totalAdded_append (xs ++ [r]) ys
    have t3 := totalAdded_append xs [r]
    have a1 : ∀ x ∈ xs, x.SizeArgs w := fun x hx =>
      hargs x (by rw [hsplit]; exact List.mem_append_left _ hx)
    have a2 : ∀ x ∈ xs ++ [r], x.SizeArgs w := fun x hx =>
      hargs x (by rw [hsplit2]; exact List.mem_append_left _ hx)
    rw [runReports_RunningAllocBytes_exact w g xs hA hRA hRD a1 (by omega),
      runReports_RunningAllocBytes_exact w g (xs ++ [r]) hA hRA hRD a2 (by omega)]
    omega
  · exact runReports_RunningDeallocBytes_exact w g rs hA hRA hRD hargs h
  · intro xs r ys hsplit
    have hsplit2 : rs = (xs ++ [r]) ++ ys := by simp [hsplit]
    have t1 : totalSubtracted rs = totalSubtracted xs + totalSubtracted ([r] ++ ys) := by
      rw [hsplit]
      exact totalSubtracted_append xs (r :: ys)
    have t2 : totalSubtracted rs = totalSubtracted (xs ++ [r]) + totalSubtracted ys := by
      rw [hsplit2]
      exact totalSubtracted_append (xs ++ [r]) ys
    have t3 := totalSubtracted_append xs [r]
    have a1 : ∀ x ∈ xs, x.SizeArgs w := fun x hx =>
      hargs x (by rw [hsplit]; exact List.mem_append_left _ hx)
    have a2 : ∀ x ∈ xs ++ [r], x.SizeArgs w := fun x hx =>
      hargs x (by rw [hsplit2]; exact List.mem_append_left _ hx)
    rw [runReports_RunningDeallocBytes_exact w g xs hA hRA hRD a1 (by omega),
      runReports_RunningDeallocBytes_exact w g (xs ++ [r]) hA hRA hRD a2 (by omega)]
    omega
  · apply eq_of_cast_eq (size_add_lt w _ _) (size_add_lt w _ _)
    rw [size_add_cast, size_sub_cast, size_add_cast, size_sub_cast, c1, c2, c3]
    ring
  · intro xs ys hsplit
    have a1 : ∀ x ∈ xs, x.SizeArgs w := fun x hx =>
      hargs x (by rw [hsplit]; exact List.mem_append_left _ hx)
    exact (runReports_counters w xs g hA hRA hRD a1).2.2.2.1

/-- C11 amended, on a 64-bit ledger with 300 and 40 on the running counters: allocate 24,
grow that block to 100, free it, shrink a block of 500 to 200. The counters end at
300 + 100 and 40 + 400, and the base value of the ledger is kept. -/
theorem C11_running_counters_witness :
    (runReports 64 sampleGlobals
      [Report.Alloc 24, Report.Realloc 24 100, Report.Dealloc 100,
       Report.Realloc 500 200]).RunningAllocBytes = sampleGlobals.RunningAllocBytes +
        totalAdded [Report.Alloc 24, Report.Realloc 24 100, Report.Dealloc 100,
          Report.Realloc 500 200] ∧
    (runReports 64 sampleGlobals
      [Report.Alloc 24, Report.Realloc 24 100, Report.Dealloc 100,
       Report.Realloc 500 200]).RunningDeallocBytes = sampleGlobals.RunningDeallocBytes +
        totalSubtracted [Report.Alloc 24, Report.Realloc 24 100, Report.Dealloc 100,
          Report.Realloc 500 200] ∧
    ledgerBase 64 (runReports 64 sampleGlobals
      [Report.Alloc 24, Report.Realloc 24 100, Report.Dealloc 100,
       Report.Realloc 500 200]) = ledgerBase 64 sampleGlobals :=
  have h := C11_running_counters 64 sampleGlobals
    [Report.Alloc 24, Report.Realloc 24 100, Report.Dealloc 100, Report.Realloc 500 200]
    (by decide) (by decide) (by decide) (by simp [Report.SizeArgs])
  ⟨(h.2.2.2.1 (by decide)).1, (h.2.2.2.2.1 (by decide)).1, h.2.2.2.2.2.1⟩

/-! ## Assignment -/

/-- C12. After `p = q`, `p.ForceGet()` is `q`, and `p.Get()` is `q` when `q` is null or its
referent has `OF_EuthanizeMe` clear; after `p = nullptr`, `p = 0` as `int` and `p = 0` as
`long` (the `assert(val == 0)` holding), `p.ForceGet()` and `p.Get()` are null; and
`MakeObjPtr(t).ForceGet()` is `t`, whatever the fresh `TObjPtr` held before. -/
theorem C12_assignment_round_trip (heap : Heap) (p : TObjPtr) (q junk t : Ptr) :
    (TObjPtr.ForceGet heap (p.assign q)).ret = q ∧
    ((q = NULL ∨ Alive heap q) → TObjPtr.Get heap (p.assign q) = Except.ok ⟨q, q, heap⟩) ∧
    ((TObjPtr.ForceGet heap p.assign_nullptr).ret = NULL ∧
      TObjPtr.Get heap p.assign_nullptr = Except.ok ⟨NULL, NULL, heap⟩) ∧
    (∃ z, p.assign_int 0 = Except.ok z ∧ (TObjPtr.ForceGet heap z).ret = NULL ∧
      TObjPtr.Get heap z = Except.ok ⟨NULL, NULL, heap⟩) ∧
    (∃ z, p.assign_long 0 = Except.ok z ∧ (TObjPtr.ForceGet heap z).ret = NULL ∧
      TObjPtr.Get heap z = Except.ok ⟨NULL, NULL, heap⟩) ∧
    (TObjPtr.ForceGet heap (MakeObjPtr junk t)).ret = t := by
  refine ⟨rfl, ?_, ⟨rfl, ReadBarrier_null heap⟩, ⟨⟨NULL⟩, rfl, rfl, ReadBarrier_null heap⟩,
    ⟨⟨NULL⟩, rfl, rfl, ReadBarrier_null heap⟩, rfl⟩
  rintro (h | h)
  · subst h
    exact ReadBarrier_null heap
  · exact ReadBarrier_alive h

/-- C12 at the sample memory: a `TObjPtr` that held 1 is assigned the healthy object at 2. -/
theorem C12_assignment_round_trip_witness :
    TObjPtr.Get sampleHeap ((⟨1⟩ : TObjPtr).assign 2) = Except.ok ⟨2, 2, sampleHeap⟩ :=
  (C12_assignment_round_trip sampleHeap ⟨1⟩ 2 0 0).2.1 (Or.inr sampleHeap_alive)

/-! ## The two whites -/

theorem xor_WhiteBits_lt {x : Nat} (h : x < 2 ^ 32) : x ^^^ OF_WhiteBits < 2 ^ 32 :=
  Nat.xor_lt_two_pow h (by decide)

theorem xor_xor_WhiteBits (x : Nat) : (x ^^^ OF_WhiteBits) ^^^ OF_WhiteBits = x := by
  rw [Nat.xor_assoc, Nat.xor_self, Nat.xor_zero]

/-- C13. With `CurrentWhite` a `uint32_t`, `GC::OtherWhite()` is `CurrentWhite` xor
`OF_WhiteBits`; when `CurrentWhite` is `OF_White0` it is `OF_White1` and the other way
round, so it differs from `CurrentWhite` and has no `OF_Black` bit; the flip
`CurrentWhite ^= OF_WhiteBits` puts the old `OtherWhite()` into `CurrentWhite`, done twice
it gives back the state it started from, and after one flip `OtherWhite()` is the
`CurrentWhite` of before. -/
theorem C13_whites_swap_roles (g : GC.Globals) (h : g.CurrentWhite < 2 ^ 32) :
    GC.OtherWhite g = g.CurrentWhite ^^^ OF_WhiteBits ∧
    (g.CurrentWhite = OF_White0 → GC.OtherWhite g = OF_White1) ∧
    (g.CurrentWhite = OF_White1 → GC.OtherWhite g = OF_White0) ∧
    ((g.CurrentWhite = OF_White0 ∨ g.CurrentWhite = OF_White1) →
      GC.OtherWhite g ≠ g.CurrentWhite ∧ GC.OtherWhite g &&& OF_Black = 0) ∧
    (GC.flipCurrentWhite g).CurrentWhite = GC.OtherWhite g ∧
    GC.flipCurrentWhite (GC.flipCurrentWhite g) = g ∧
    GC.OtherWhite (GC.flipCurrentWhite g) = g.CurrentWhite := by
  have e1 : GC.OtherWhite g = g.CurrentWhite ^^^ OF_WhiteBits :=
    Nat.mod_eq_of_lt (xor_WhiteBits_lt h)
  have e2 : (GC.flipCurrentWhite g).CurrentWhite = g.CurrentWhite ^^^ OF_WhiteBits :=
    Nat.mod_eq_of_lt (xor_WhiteBits_lt h)
  have e3 : ((g.CurrentWhite ^^^ OF_WhiteBits) ^^^ OF_WhiteBits) % 2 ^ 32 = g.CurrentWhite := by
    rw [xor_xor_WhiteBits]
    exact Nat.mod_eq_of_lt h
  refine ⟨e1, ?_, ?_, ?_, e2.trans e1.symm, ?_, ?_⟩
  · intro h0
    rw [e1, h0]
    decide
  · intro h1
    rw [e1, h1]
    decide
  · rintro (h0 | h1)
    · rw [e1, h0]
      decide
    · rw [e1, h1]
      decide
  · have e4 : (GC.flipCurrentWhite (GC.flipCurrentWhite g)).CurrentWhite = g.CurrentWhite := by
      show ((GC.flipCurrentWhite g).CurrentWhite ^^^ OF_WhiteBits) % 2 ^ 32 = g.CurrentWhite
      rw [e2]
      exact e3
    cases g
    simp only [GC.flipCurrentWhite] at e4 ⊢
    simp only [e4]
  · show ((GC.flipCurrentWhite g).CurrentWhite ^^^ OF_WhiteBits) % 2 ^ 32 = g.CurrentWhite
    rw [e2]
    exact e3

/-- C13 on the sample ledger, whose `CurrentWhite` is `OF_White0`. -/
theorem C13_whites_swap_roles_witness :
    GC.OtherWhite sampleGlobals = OF_White1 ∧
    GC.flipCurrentWhite (GC.flipCurrentWhite sampleGlobals) = sampleGlobals ∧
    GC.OtherWhite (GC.flipCurrentWhite sampleGlobals) = sampleGlobals.CurrentWhite :=
  have h := C13_whites_swap_roles sampleGlobals (by decide)
  ⟨h.2.1 rfl, h.2.2.2.2.2.1, h.2.2.2.2.2.2⟩

/-! ## The const `Get` -/

theorem ReadBarrier_heap {heap : Heap} {p : Ptr} {r : Outcome Ptr}
    (h : GC.ReadBarrier heap p = Except.ok r) : r.heap = heap := by
  unfold GC.ReadBarrier at h
  by_cases hp : p = NULL
  · rw [if_pos hp] at h
    cases h
    rfl
  · rw [if_neg hp] at h
    cases hd : deref heap p with
    | error e => simp [hd] at h
    | ok d =>
      by_cases hf : d.ObjectFlags &&& OF_EuthanizeMe = 0
      · simp only [hd, hf, if_true] at h
        cases h
        rfl
      · simp only [hd, hf, if_false] at h
        cases h
        rfl

/-- C16. The member `Get() const` returns what `Get()` returns (and faults where it faults)
and keeps the stored pointer and object memory; with a referent that has `OF_EuthanizeMe`
set it returns null and a `ForceGet()` after it still returns the stored non-null pointer,
where a `ForceGet()` after `Get()` returns null. -/
theorem C16_Get_const_keeps_slot (heap : Heap) (p : TObjPtr) :
    (∀ r, TObjPtr.Get heap p = Except.ok r →
      TObjPtr.Get_const heap p = Except.ok ⟨r.ret, p.pp, heap⟩) ∧
    (∀ e, TObjPtr.Get heap p = Except.error e →
      TObjPtr.Get_const heap p = Except.error e) ∧
    (Euthanized heap p.pp →
      (∃ r, TObjPtr.Get_const heap p = Except.ok r ∧ r.ret = NULL ∧
        (TObjPtr.ForceGet r.heap ⟨r.slot⟩).ret = p.pp ∧ p.pp ≠ NULL) ∧
      (∃ r, TObjPtr.Get heap p = Except.ok r ∧ r.ret = NULL ∧
        (TObjPtr.ForceGet r.heap ⟨r.slot⟩).ret = NULL)) := by
  refine ⟨?_, ?_, ?_⟩
  · intro r hr
    have hh := ReadBarrier_heap hr
    unfold TObjPtr.Get at hr
    simp [TObjPtr.Get_const, hr, hh]
  · intro e he
    unfold TObjPtr.Get at he
    simp [TObjPtr.Get_const, he]
  · intro h
    exact ⟨⟨_, Get_const_euthanized h, rfl, rfl, h.slot_ne_null⟩,
      ⟨_, ReadBarrier_euthanized h, rfl, rfl⟩⟩

/-- C16 at the sample memory, on a `TObjPtr` storing the dying object at address 1. -/
theorem C16_Get_const_keeps_slot_witness :
    (∃ r, TObjPtr.Get_const sampleHeap ⟨1⟩ = Except.ok r ∧ r.ret = NULL ∧
      (TObjPtr.ForceGet r.heap ⟨r.slot⟩).ret = 1 ∧ (1 : Ptr) ≠ NULL) ∧
    (∃ r, TObjPtr.Get sampleHeap ⟨1⟩ = Except.ok r ∧ r.ret = NULL ∧
      (TObjPtr.ForceGet r.heap ⟨r.slot⟩).ret = NULL) :=
  (C16_Get_const_keeps_slot sampleHeap ⟨1⟩).2.2 sampleHeap_euthanized

/-! ## Flag words -/

theorem OF_MarkBits_eq : OF_MarkBits = 2 ^ 3 - 1 := by decide

theorem OF_EuthanizeMe_eq : OF_EuthanizeMe = 2 ^ 5 := by decide

theorem attributeFlags_bit : ∀ a ∈ attributeFlags, ∃ k, k < 16 ∧ 3 ≤ k ∧ a = 2 ^ k := by
  decide

/-- Setting a bit at or above position `n` keeps the `n` low bits. -/
theorem or_two_pow_and_low (f k n : Nat) (h : n ≤ k) :
    (f ||| 2 ^ k) &&& (2 ^ n - 1) = f &&& (2 ^ n - 1) := by
  apply Nat.eq_of_testBit_eq
  intro i
  simp only [Nat.testBit_and, Nat.testBit_or, Nat.testBit_two_pow, Nat.testBit_two_pow_sub_one]
  by_cases hi : i < n
  · have hk : ¬ k = i := by omega
    simp [hi, hk]
  · simp [hi]

/-- Clearing a bit at or above position `n`, in a word of `m` bits, keeps the `n` low bits. -/
theorem and_not_two_pow_and_low (f k n m : Nat) (h : n ≤ k) (hm : n ≤ m) :
    (f &&& (2 ^ k ^^^ (2 ^ m - 1))) &&& (2 ^ n - 1) = f &&& (2 ^ n - 1) := by
  apply Nat.eq_of_testBit_eq
  intro i
  simp only [Nat.testBit_and, Nat.testBit_xor, Nat.testBit_two_pow,
    Nat.testBit_two_pow_sub_one]
  by_cases hi : i < n
  · have hk : ¬ k = i := by omega
    have him : i < m := by omega
    simp [hi, hk, him]
  · simp [hi]

/-- A word made of color bits has bit 5 clear. -/
theorem color_testBit_five {c : Nat} (hc : c &&& OF_MarkBits = c) : c.testBit 5 = false := by
  rw [← hc, OF_MarkBits_eq, Nat.testBit_and, Nat.testBit_two_pow_sub_one]
  simp

/-- Two words with the same bit 5 pass or fail the test `& OF_EuthanizeMe` together. -/
theorem and_EuthanizeMe_congr {x y : Nat} (h : x.testBit 5 = y.testBit 5) :
    x &&& OF_EuthanizeMe = y &&& OF_EuthanizeMe := by
  apply Nat.eq_of_testBit_eq
  intro i
  simp only [OF_EuthanizeMe_eq, Nat.testBit_and, Nat.testBit_two_pow]
  by_cases hi : 5 = i
  · subst hi
    simp [h]
  · simp [hi]

/-- C14. The sixteen enumerators `OF_White0` .. `OF_ClientSide` are the bits 0 to 15, each
one bit and no two the same; `OF_WhiteBits` is `OF_White0 | OF_White1` and `OF_MarkBits` is
`OF_White0 | OF_White1 | OF_Black`. So for every flag word, setting or clearing an
enumerator that is no color bit leaves `flags & OF_MarkBits` as it was, and setting,
clearing or toggling color bits leaves `flags & OF_EuthanizeMe`, the test of the read
barrier, as it was. -/
theorem C14_color_and_attributes_orthogonal (flags a c : Nat) :
    EObjectFlags = (List.range 16).map (fun i => 2 ^ i) ∧
    EObjectFlags.Nodup ∧
    attributeFlags = EObjectFlags.drop 3 ∧
    OF_WhiteBits = OF_White0 ||| OF_White1 ∧
    OF_MarkBits = OF_White0 ||| OF_White1 ||| OF_Black ∧
    (a ∈ attributeFlags →
      setFlags flags a &&& OF_MarkBits = flags &&& OF_MarkBits ∧
      clearFlags flags a &&& OF_MarkBits = flags &&& OF_MarkBits) ∧
    (c &&& OF_MarkBits = c →
      setFlags flags c &&& OF_EuthanizeMe = flags &&& OF_EuthanizeMe ∧
      clearFlags flags c &&& OF_EuthanizeMe = flags &&& OF_EuthanizeMe ∧
      toggleFlags flags c &&& OF_EuthanizeMe = flags &&& OF_EuthanizeMe) := by
  refine ⟨by decide, by decide, by decide, rfl, rfl, ?_, ?_⟩
  · intro ha
    obtain ⟨k, _, hk, rfl⟩ := attributeFlags_bit a ha
    rw [OF_MarkBits_eq]
    exact ⟨or_two_pow_and_low flags k 3 hk,
      and_not_two_pow_and_low flags k 3 32 hk (by decide)⟩
  · intro hc
    have h5 := color_testBit_five hc
    refine ⟨and_EuthanizeMe_congr ?_, and_EuthanizeMe_congr ?_, and_EuthanizeMe_congr ?_⟩
    · simp [setFlags, h5]
    · simp only [clearFlags, Nat.testBit_and, Nat.testBit_xor, Nat.testBit_two_pow_sub_one, h5]
      simp
    · simp [toggleFlags, h5]

/-- C14 on the flag word of the dying object of the sample memory: clearing
`OF_EuthanizeMe` keeps its color, and repainting it from white 0 to white 1 keeps the
barrier's test. -/
theorem C14_color_and_attributes_orthogonal_witness :
    clearFlags (OF_EuthanizeMe ||| OF_White0) OF_EuthanizeMe &&& OF_MarkBits =
      (OF_EuthanizeMe ||| OF_White0) &&& OF_MarkBits ∧
    toggleFlags (OF_EuthanizeMe ||| OF_White0) OF_WhiteBits &&& OF_EuthanizeMe =
      (OF_EuthanizeMe ||| OF_White0) &&& OF_EuthanizeMe :=
  ⟨((C14_color_and_attributes_orthogonal (OF_EuthanizeMe ||| OF_White0) OF_EuthanizeMe
      OF_WhiteBits).2.2.2.2.2.1 (by decide)).2,
   ((C14_color_and_attributes_orthogonal (OF_EuthanizeMe ||| OF_White0) OF_EuthanizeMe
      OF_WhiteBits).2.2.2.2.2.2 (by decide)).2.2⟩

end GZDoom
